import Mathlib

/-!
Verification of the directory-backed GPU job queue (`jh.py`).

The development shallowly embeds the queue store, the scan, the status
lifecycle, the runner's supervised-execution protocol and the data-binding
step.  Python strings are modelled as `List Char` (`Str`); text files are
modelled as lists of newline-terminated lines (stored without the final
newline, `readline` re-attaches it); `int(...)`, `str.strip()`,
`str.replace(old, '')` and `str.split(',')` are embedded character by
character below.
-/

/-- Python strings are modelled as lists of characters. -/
abbrev Str := List Char

/-- The character list of a string literal. -/
def chars (s : String) : Str := s.data

/-- Characters removed by Python `str.strip()` (the ASCII whitespace set;
the rarely used non-ASCII space code points are not modelled). -/
def wsChar (c : Char) : Bool :=
  c = ' ' || c = '\t' || c = '\n' || c = '\r' || c = '\x0b' || c = '\x0c'

/-- Embedding of Python `str.strip()`: drop whitespace from both ends. -/
def listStrip (s : Str) : Str :=
  ((s.dropWhile wsChar).reverse.dropWhile wsChar).reverse

/-- `leadsWith pat s` holds when `pat` begins the list `s`. -/
def leadsWith : Str → Str → Bool
  | [], _ => true
  | _ :: _, [] => false
  | a :: ps, b :: ss => if a = b then leadsWith ps ss else false

/-- `hasOccurB pat s`: some occurrence of `pat` begins at some position of `s`
(`pat` is always nonempty where this is used). -/
def hasOccurB (pat : Str) : Str → Bool
  | [] => false
  | c :: rest => leadsWith pat (c :: rest) || hasOccurB pat rest

/-- Fuel-driven scanner behind `listRemoveAll`; scans left to right and, on a
match, continues after the matched occurrence, as Python `str.replace` does. -/
def removeAllF (pat : Str) : Nat → Str → Str
  | _, [] => []
  | 0, s => s
  | fuel + 1, c :: rest =>
    if pat ≠ [] ∧ leadsWith pat (c :: rest) = true then
      removeAllF pat fuel (List.drop pat.length (c :: rest))
    else c :: removeAllF pat fuel rest

/-- Embedding of Python `s.replace(pat, '')`: delete every (non-overlapping,
left-to-right) occurrence of `pat` from `s`. -/
def listRemoveAll (pat s : Str) : Str := removeAllF pat s.length s

/-- Embedding of Python `s.split(',')` (a nonempty separator keeps empty
pieces, e.g. `'0,1,'` splits into `['0','1','']`). -/
def splitComma : Str → List Str
  | [] => [[]]
  | c :: rest =>
    if c = ',' then [] :: splitComma rest
    else
      match splitComma rest with
      | [] => [[c]]
      | g :: gs => (c :: g) :: gs

/-- The decimal digit character for `d < 10`. -/
def digitChar (d : Nat) : Char := Char.ofNat (48 + d)

/-- Fuel-driven writer behind `natDigits`. -/
def natDigitsF : Nat → Nat → Str
  | 0, n => [digitChar n]
  | fuel + 1, n =>
    if n < 10 then [digitChar n]
    else natDigitsF fuel (n / 10) ++ [digitChar (n % 10)]

/-- Decimal digits of a natural number, most significant first
(the digits part of Python `str(i)`). -/
def natDigits (n : Nat) : Str := natDigitsF n n

/-- Embedding of Python `str(i)` for an `int` value. -/
def pyStr (i : Int) : Str :=
  if i < 0 then '-' :: natDigits i.natAbs else natDigits i.toNat

/-- Numeric value of a decimal digit character, if it is one. -/
def digitVal (c : Char) : Option Nat :=
  if '0' ≤ c ∧ c ≤ '9' then some (c.toNat - 48) else none

/-- Left-to-right accumulation of decimal digits. -/
def parseDigitsAux (acc : Nat) : Str → Option Nat
  | [] => some acc
  | c :: rest =>
    match digitVal c with
    | none => none
    | some d => parseDigitsAux (acc * 10 + d) rest

/-- A nonempty all-digit list read as a natural number. -/
def parseDigits : Str → Option Nat
  | [] => none
  | c :: rest => parseDigitsAux 0 (c :: rest)

/-- Sign-and-digits part of Python `int(s)` (after stripping). -/
def pyIntCore : Str → Option Int
  | [] => none
  | c :: rest =>
    if c = '-' then (parseDigits rest).map (fun n => -(n : Int))
    else if c = '+' then (parseDigits rest).map (fun n => (n : Int))
    else (parseDigits (c :: rest)).map (fun n => (n : Int))

/-- Embedding of Python `int(s)`: `none` models the raised `ValueError`. -/
def pyInt (s : Str) : Option Int := pyIntCore (listStrip s)

/-- A string whose first and last characters (if any) are not whitespace;
`strip` leaves such a string unchanged. -/
def noSurround (p : Str) : Bool :=
  (match p.head? with
   | none => true
   | some c => !wsChar c) &&
  (match p.getLast? with
   | none => true
   | some c => !wsChar c)

/-! ### Lemmas about the string primitives -/

theorem leadsWith_rfl (p : Str) : ∀ t : Str, leadsWith p (p ++ t) = true := by
  induction p with
  | nil => intro t; rfl
  | cons a ps ih => intro t; simp [leadsWith, ih]

theorem leadsWith_head {a : Char} {m s : Str} {c : Char}
    (h : leadsWith (a :: m) (c :: s) = true) : a = c := by
  by_contra hne
  simp [leadsWith, hne] at h

theorem hasOccurB_head_mem {a : Char} {m s : Str}
    (h : hasOccurB (a :: m) s = true) : a ∈ s := by
  induction s with
  | nil => simp [hasOccurB] at h
  | cons c rest ih =>
    simp only [hasOccurB, Bool.or_eq_true] at h
    rcases h with h | h
    · rw [leadsWith_head h]; exact List.mem_cons_self c rest
    · exact List.mem_cons_of_mem c (ih h)

theorem removeAllF_no_occur {pat : Str} :
    ∀ fuel s, hasOccurB pat s = false → removeAllF pat fuel s = s := by
  intro fuel
  induction fuel with
  | zero => intro s _; cases s <;> rfl
  | succ fuel ih =>
    intro s hs
    cases s with
    | nil => rfl
    | cons c rest =>
      simp only [hasOccurB, Bool.or_eq_false_iff] at hs
      rw [removeAllF]
      rw [if_neg]
      · rw [ih rest hs.2]
      · intro hcontra
        rw [hs.1] at hcontra
        exact absurd hcontra.2 (by simp)

theorem listRemoveAll_no_occur {pat s : Str} (h : hasOccurB pat s = false) :
    listRemoveAll pat s = s :=
  removeAllF_no_occur _ _ h

/-- Scanning `pat ++ rest` deletes the leading occurrence of `pat` and, when
`pat` occurs nowhere in `rest`, leaves `rest` intact. -/
theorem listRemoveAll_marker {pat rest : Str} (hp : pat ≠ [])
    (hno : hasOccurB pat rest = false) :
    listRemoveAll pat (pat ++ rest) = rest := by
  rcases pat with _ | ⟨a, ps⟩
  · exact absurd rfl hp
  · show removeAllF (a :: ps) (a :: (ps ++ rest)).length (a :: (ps ++ rest)) = rest
    rw [List.length_cons, removeAllF, if_pos]
    · have hdrop : List.drop (a :: ps).length (a :: (ps ++ rest)) = rest := by
        simp
      rw [hdrop]
      exact removeAllF_no_occur _ _ hno
    · exact ⟨by simp, leadsWith_rfl (a :: ps) rest⟩

theorem leadsWith_of_append_single {m xs : Str} {z : Char}
    (hz : z ∉ m) (h : leadsWith m (xs ++ [z]) = true) : leadsWith m xs = true := by
  induction m generalizing xs with
  | nil => rfl
  | cons a ms ih =>
    cases xs with
    | nil =>
      simp only [List.nil_append] at h
      have ha := leadsWith_head h
      subst ha
      exact absurd (List.mem_cons_self a ms) hz
    | cons b bs =>
      simp only [List.cons_append] at h
      have hab := leadsWith_head h
      subst hab
      simp only [leadsWith, if_pos rfl] at h ⊢
      exact ih (fun hm => hz (List.mem_cons_of_mem a hm)) h

theorem hasOccurB_append_single {m p : Str} {z : Char} (hz : z ∉ m)
    (hm : m ≠ []) (hp : hasOccurB m p = false) :
    hasOccurB m (p ++ [z]) = false := by
  induction p with
  | nil =>
    rcases m with _ | ⟨a, ms⟩
    · exact absurd rfl hm
    · show hasOccurB (a :: ms) [z] = false
      simp only [hasOccurB, Bool.or_false]
      by_contra hlead
      rw [Bool.not_eq_false] at hlead
      have ha := leadsWith_head hlead
      subst ha
      exact hz (List.mem_cons_self _ _)
  | cons c rest ih =>
    simp only [hasOccurB, Bool.or_eq_false_iff] at hp
    simp only [List.cons_append, hasOccurB, Bool.or_eq_false_iff]
    refine ⟨?_, ih hp.2⟩
    by_contra hlead
    rw [Bool.not_eq_false] at hlead
    have : leadsWith m (c :: rest) = true :=
      leadsWith_of_append_single hz (by simpa using hlead)
    rw [hp.1] at this
    exact absurd this (by simp)

theorem hasOccurB_space_cons {m p : Str} {a : Char} {ms : Str}
    (hm : m = a :: ms) (ha : a ≠ ' ') (hp : hasOccurB m p = false) :
    hasOccurB m (' ' :: p) = false := by
  subst hm
  simp only [hasOccurB, Bool.or_eq_false_iff]
  refine ⟨?_, hp⟩
  by_contra hlead
  rw [Bool.not_eq_false] at hlead
  exact ha (leadsWith_head hlead)

theorem dropWhile_cons_of_neg {p : Char → Bool} {c : Char} {l : Str}
    (h : p c = false) : List.dropWhile p (c :: l) = c :: l := by
  simp [List.dropWhile, h]

theorem dropWhile_reverse_of_last {p : Str} {w : Char}
    (hl : p.getLast? = some w) (hw : wsChar w = false) :
    List.dropWhile wsChar p.reverse = p.reverse := by
  rcases hrev : p.reverse with _ | ⟨z, zs⟩
  · rfl
  · have hzw : z = w := by
      have hh := List.head?_reverse p
      rw [hrev, hl] at hh
      simpa using hh
    subst hzw
    exact dropWhile_cons_of_neg hw

theorem noSurround_head {a : Char} {rest : Str}
    (h : noSurround (a :: rest) = true) : wsChar a = false := by
  simp only [noSurround, Bool.and_eq_true] at h
  have h1 := h.1
  simpa [List.head?] using h1

theorem noSurround_last {p : Str} {w : Char} (hl : p.getLast? = some w)
    (h : noSurround p = true) : wsChar w = false := by
  simp only [noSurround, Bool.and_eq_true] at h
  have h2 := h.2
  rw [hl] at h2
  simpa using h2

theorem listStrip_of_noSurround {p : Str} (h : noSurround p = true) :
    listStrip p = p := by
  cases p with
  | nil => rfl
  | cons a rest =>
    have hne : (a :: rest) ≠ [] := by simp
    have hl : (a :: rest).getLast? = some ((a :: rest).getLast hne) :=
      List.getLast?_eq_getLast _ hne
    rw [listStrip, dropWhile_cons_of_neg (noSurround_head h),
      dropWhile_reverse_of_last hl (noSurround_last hl h), List.reverse_reverse]

/-- `strip` of a single leading space, a clean payload and a trailing newline
recovers exactly the payload. -/
theorem listStrip_space_payload_newline {p : Str} (h : noSurround p = true) :
    listStrip (' ' :: (p ++ ['\n'])) = p := by
  rw [listStrip]
  have hsp : wsChar ' ' = true := by decide
  have hnl : wsChar '\n' = true := by decide
  rw [List.dropWhile_cons, if_pos hsp]
  cases p with
  | nil => decide
  | cons a rest =>
    have hne : (a :: rest) ≠ [] := by simp
    have hl : (a :: rest).getLast? = some ((a :: rest).getLast hne) :=
      List.getLast?_eq_getLast _ hne
    rw [List.cons_append, dropWhile_cons_of_neg (noSurround_head h),
      ← List.cons_append, List.reverse_append]
    simp only [List.reverse_singleton, List.singleton_append]
    rw [List.dropWhile_cons, if_pos hnl,
      dropWhile_reverse_of_last hl (noSurround_last hl h), List.reverse_reverse]

/-! ### Decimal digits: printing and reading back -/

/-- Decimal digit character test. -/
def isDigitCh (c : Char) : Bool := '0' ≤ c && c ≤ '9'

theorem digitVal_digitChar : ∀ d : Nat, d < 10 → digitVal (digitChar d) = some d := by
  decide

theorem isDigitCh_digitChar : ∀ d : Nat, d < 10 → isDigitCh (digitChar d) = true := by
  decide

theorem natDigitsF_ne_nil : ∀ fuel n, natDigitsF fuel n ≠ [] := by
  intro fuel n
  cases fuel with
  | zero => simp [natDigitsF]
  | succ fuel =>
    rw [natDigitsF]
    split
    · simp
    · simp

theorem natDigitsF_all_digit :
    ∀ fuel n, n ≤ fuel → ∀ c ∈ natDigitsF fuel n, isDigitCh c = true := by
  intro fuel
  induction fuel with
  | zero =>
    intro n hn c hc
    have : n = 0 := Nat.le_zero.mp hn
    subst this
    simp only [natDigitsF, List.mem_singleton] at hc
    subst hc
    exact isDigitCh_digitChar 0 (by omega)
  | succ fuel ih =>
    intro n hn c hc
    rw [natDigitsF] at hc
    by_cases h10 : n < 10
    · rw [if_pos h10] at hc
      simp only [List.mem_singleton] at hc
      subst hc
      exact isDigitCh_digitChar n h10
    · rw [if_neg h10] at hc
      rcases List.mem_append.mp hc with h | h
      · exact ih (n / 10) (by omega) c h
      · simp only [List.mem_singleton] at h
        subst h
        exact isDigitCh_digitChar (n % 10) (Nat.mod_lt _ (by omega))

theorem parseDigitsAux_append (ys : Str) :
    ∀ xs acc, parseDigitsAux acc (xs ++ ys) =
      match parseDigitsAux acc xs with
      | none => none
      | some a => parseDigitsAux a ys := by
  intro xs
  induction xs with
  | nil => intro acc; rfl
  | cons c rest ih =>
    intro acc
    simp only [List.cons_append, parseDigitsAux]
    cases digitVal c with
    | none => rfl
    | some d => exact ih (acc * 10 + d)

theorem parseDigitsAux_natDigitsF :
    ∀ fuel n acc, n ≤ fuel →
      parseDigitsAux acc (natDigitsF fuel n) =
        some (acc * 10 ^ (natDigitsF fuel n).length + n) := by
  intro fuel
  induction fuel with
  | zero =>
    intro n acc hn
    have hz : n = 0 := Nat.le_zero.mp hn
    subst hz
    simp [natDigitsF, parseDigitsAux, digitVal_digitChar 0 (by omega)]
  | succ fuel ih =>
    intro n acc hn
    rw [natDigitsF]
    by_cases h10 : n < 10
    · rw [if_pos h10]
      simp [parseDigitsAux, digitVal_digitChar n h10]
    · rw [if_neg h10]
      rw [parseDigitsAux_append]
      rw [ih (n / 10) acc (by omega)]
      simp only [parseDigitsAux, digitVal_digitChar (n % 10) (Nat.mod_lt _ (by omega))]
      have hd : 10 * (n / 10) + n % 10 = n := Nat.div_add_mod n 10
      have harith :
          (acc * 10 ^ (natDigitsF fuel (n / 10)).length + n / 10) * 10 + n % 10 =
            acc * 10 ^ ((natDigitsF fuel (n / 10)).length + 1) + n := by
        have h1 :
            (acc * 10 ^ (natDigitsF fuel (n / 10)).length + n / 10) * 10 + n % 10 =
              acc * (10 ^ (natDigitsF fuel (n / 10)).length * 10) +
                (10 * (n / 10) + n % 10) := by ring
        rw [h1, hd, pow_succ]
      rw [List.length_append, List.length_singleton]
      rw [harith]

theorem parseDigits_natDigits (n : Nat) : parseDigits (natDigits n) = some n := by
  have h := parseDigitsAux_natDigitsF n n 0 (le_refl n)
  rw [show natDigitsF n n = natDigits n from rfl] at h
  rcases hcr : natDigits n with _ | ⟨c, rest⟩
  · exact absurd hcr (natDigitsF_ne_nil n n)
  · rw [hcr] at h
    rw [parseDigits, h]
    simp

theorem wsChar_eq_false_of_digit {c : Char} (h : isDigitCh c = true) :
    wsChar c = false := by
  by_contra hw
  rw [Bool.not_eq_false] at hw
  simp only [wsChar, Bool.or_eq_true, decide_eq_true_eq] at hw
  rcases hw with ((((h1 | h1) | h1) | h1) | h1) | h1 <;>
    (subst h1; exact absurd h (by decide))

theorem digit_ne_minus {c : Char} (h : isDigitCh c = true) : c ≠ '-' := by
  intro hc
  subst hc
  exact absurd h (by decide)

theorem digit_ne_plus {c : Char} (h : isDigitCh c = true) : c ≠ '+' := by
  intro hc
  subst hc
  exact absurd h (by decide)

/-- Characters that can appear in `pyStr i`. -/
def pyStrChar (c : Char) : Bool := isDigitCh c || c = '-'

theorem pyStr_all (i : Int) : ∀ c ∈ pyStr i, pyStrChar c = true := by
  intro c hc
  rw [pyStr] at hc
  by_cases hneg : i < 0
  · rw [if_pos hneg] at hc
    rcases List.mem_cons.mp hc with h | h
    · subst h; decide
    · have := natDigitsF_all_digit i.natAbs i.natAbs (le_refl _) c h
      simp [pyStrChar, this]
  · rw [if_neg hneg] at hc
    have := natDigitsF_all_digit i.toNat i.toNat (le_refl _) c hc
    simp [pyStrChar, this]

theorem pyStr_ne_nil (i : Int) : pyStr i ≠ [] := by
  rw [pyStr]
  by_cases hneg : i < 0
  · rw [if_pos hneg]; simp
  · rw [if_neg hneg]; exact natDigitsF_ne_nil _ _

theorem wsChar_eq_false_of_pyStrChar {c : Char} (h : pyStrChar c = true) :
    wsChar c = false := by
  simp only [pyStrChar, Bool.or_eq_true, decide_eq_true_eq] at h
  rcases h with h | h
  · exact wsChar_eq_false_of_digit h
  · subst h; decide

theorem noSurround_of_all {p : Str} (h : ∀ c ∈ p, wsChar c = false) :
    noSurround p = true := by
  cases p with
  | nil => rfl
  | cons a rest =>
    have hne : (a :: rest) ≠ [] := by simp
    have hl : (a :: rest).getLast? = some ((a :: rest).getLast hne) :=
      List.getLast?_eq_getLast _ hne
    simp only [noSurround, List.head?, hl, Bool.and_eq_true, Bool.not_eq_true']
    exact ⟨h a (List.mem_cons_self _ _), h _ (List.getLast_mem hne)⟩

theorem listStrip_pyStr (i : Int) : listStrip (pyStr i) = pyStr i :=
  listStrip_of_noSurround (noSurround_of_all
    (fun c hc => wsChar_eq_false_of_pyStrChar (pyStr_all i c hc)))

/-- Embedded `int(str(i))` round-trip: reading back a printed integer
recovers the integer. -/
theorem pyInt_pyStr (i : Int) : pyInt (pyStr i) = some i := by
  rw [pyInt, listStrip_pyStr]
  by_cases hneg : i < 0
  · rw [pyStr, if_pos hneg, pyIntCore]
    rw [if_pos rfl]
    rw [show natDigits i.natAbs = natDigitsF i.natAbs i.natAbs from rfl] at *
    rw [show (parseDigits (natDigitsF i.natAbs i.natAbs)) = some i.natAbs from
      parseDigits_natDigits i.natAbs]
    show some (-(i.natAbs : Int)) = some i
    congr 1
    omega
  · rw [pyStr, if_neg hneg]
    rcases hcr : natDigits i.toNat with _ | ⟨c, rest⟩
    · exact absurd hcr (natDigitsF_ne_nil _ _)
    · have hcd : isDigitCh c = true := by
        apply natDigitsF_all_digit i.toNat i.toNat (le_refl _)
        rw [show natDigitsF i.toNat i.toNat = natDigits i.toNat from rfl, hcr]
        exact List.mem_cons_self _ _
      rw [pyIntCore, if_neg (digit_ne_minus hcd), if_neg (digit_ne_plus hcd)]
      rw [← hcr, parseDigits_natDigits]
      show some ((i.toNat : Int)) = some i
      congr 1
      omega

/-! ### Parsing one config line -/

/-- A config line `marker ++ ' ' ++ payload ++ '\n'` read back with
`line.replace(marker, '').strip()` (the pattern used for `code_dir`,
`data_dir`, `time`, `gpus` and `status`) returns exactly the payload,
provided the payload contains no occurrence of the marker and has no
surrounding whitespace. -/
theorem parse_line_std {m p : Str} {a : Char} {ms : Str} (hm : m = a :: ms)
    (ha : a ≠ ' ') (hnl : '\n' ∉ m)
    (hno : hasOccurB m p = false) (hp : noSurround p = true) :
    listStrip (listRemoveAll m ((m ++ (' ' :: p)) ++ ['\n'])) = p := by
  have h1 : hasOccurB m (p ++ ['\n']) = false :=
    hasOccurB_append_single hnl (by rw [hm]; simp) hno
  have h2 : hasOccurB m (' ' :: (p ++ ['\n'])) = false :=
    hasOccurB_space_cons hm ha h1
  have heq : (m ++ (' ' :: p)) ++ ['\n'] = m ++ (' ' :: (p ++ ['\n'])) := by
    simp
  rw [heq, listRemoveAll_marker (by rw [hm]; simp) h2,
    listStrip_space_payload_newline hp]

/-- The `cmd` line is read back with `line.strip().replace('cmd:', '')`
(strip first, then delete the marker), which keeps the single space that
`'cmd: %s'` wrote after the colon: a nonempty command with a clean last
character comes back with one space glued in front. -/
theorem parse_line_cmd {m p : Str} {a u : Char} {ms : Str} (hm : m = a :: ms)
    (haw : wsChar a = false) (ha : a ≠ ' ')
    (hno : hasOccurB m p = false)
    (hple : p.getLast? = some u) (hu : wsChar u = false) :
    listRemoveAll m (listStrip ((m ++ (' ' :: p)) ++ ['\n'])) = ' ' :: p := by
  have hpne : p ≠ [] := by
    intro hnil
    rw [hnil] at hple
    exact absurd hple (by simp)
  have hstrip : listStrip ((m ++ (' ' :: p)) ++ ['\n']) = m ++ (' ' :: p) := by
    rw [listStrip]
    have hxcons : (m ++ (' ' :: p)) ++ ['\n'] = a :: ((ms ++ (' ' :: p)) ++ ['\n']) := by
      rw [hm]; simp
    rw [hxcons, dropWhile_cons_of_neg haw, ← hxcons, List.reverse_append]
    simp only [List.reverse_singleton, List.singleton_append]
    have hnl : wsChar '\n' = true := by decide
    rw [List.dropWhile_cons, if_pos hnl]
    have hsp2 : (' ' :: p).getLast? = some u := by
      rw [show (' ' :: p) = [' '] ++ p from rfl, List.getLast?_append, hple]
      rfl
    have hlast : (m ++ (' ' :: p)).getLast? = some u := by
      rw [List.getLast?_append, hsp2]
      rfl
    rw [dropWhile_reverse_of_last hlast hu, List.reverse_reverse]
  rw [hstrip]
  have h2 : hasOccurB m (' ' :: p) = false := hasOccurB_space_cons hm ha hno
  rw [listRemoveAll_marker (by rw [hm]; simp) h2]

/-! ### The gpus field: writing and reading the comma-joined list -/

/-- The text written for the `gpus` field: `'none'` for a missing list,
otherwise `''.join(str(gpu) + ',' for gpu in gpus)`. -/
def gpuField : Option (List Int) → Str
  | none => chars "none"
  | some l => List.flatten (l.map (fun g => pyStr g ++ [',']))

/-- Embedding of `[int(gpu) for gpu in gpus if gpu != '']`:
empty pieces are skipped, every other piece goes through `int(...)`,
whose failure (`none`) models the raised `ValueError`. -/
def parseInts : List Str → Option (List Int)
  | [] => some []
  | t :: rest =>
    if t = [] then parseInts rest
    else
      match pyInt t with
      | none => none
      | some v =>
        match parseInts rest with
        | none => none
        | some vs => some (v :: vs)

/-- Reading the `gpus` payload: `'none'` means no list, anything else is
split on commas and converted piecewise. -/
def parseGpus (g : Str) : Option (Option (List Int)) :=
  if g = chars "none" then some none
  else (parseInts (splitComma g)).map (fun l => some l)

theorem splitComma_append_comma {xs : Str} (r : Str) (hx : ',' ∉ xs) :
    splitComma (xs ++ (',' :: r)) = xs :: splitComma r := by
  induction xs with
  | nil => simp [splitComma]
  | cons c xs ih =>
    have hc : c ≠ ',' := fun hcc => hx (hcc ▸ List.mem_cons_self c xs)
    have hx' : ',' ∉ xs := fun hmm => hx (List.mem_cons_of_mem c hmm)
    rw [List.cons_append, splitComma, if_neg hc, ih hx']

theorem comma_not_mem_pyStr (g : Int) : ',' ∉ pyStr g := by
  intro hmm
  have := pyStr_all g ',' hmm
  exact absurd this (by decide)

theorem splitComma_gpuField :
    ∀ l : List Int, splitComma (gpuField (some l)) = l.map pyStr ++ [[]] := by
  intro l
  induction l with
  | nil => rfl
  | cons g gs ih =>
    have hstep : gpuField (some (g :: gs)) =
        pyStr g ++ (',' :: gpuField (some gs)) := by
      simp [gpuField, List.flatten_cons]
    rw [hstep, splitComma_append_comma _ (comma_not_mem_pyStr g), ih]
    simp

theorem parseInts_tokens :
    ∀ l : List Int, parseInts (l.map pyStr ++ [[]]) = some l := by
  intro l
  induction l with
  | nil => rfl
  | cons g gs ih =>
    show parseInts (pyStr g :: (gs.map pyStr ++ [[]])) = some (g :: gs)
    rw [parseInts, if_neg (pyStr_ne_nil g), pyInt_pyStr, ih]

/-- Every character of a written nonempty gpus payload is a digit, a minus
sign or a comma. -/
theorem gpuField_all (l : List Int) :
    ∀ c ∈ gpuField (some l), (pyStrChar c || (c = ',')) = true := by
  induction l with
  | nil => intro c hc; exact absurd hc (by simp [gpuField])
  | cons g gs ih =>
    intro c hc
    have hc2 : c ∈ (pyStr g ++ [',']) ++ gpuField (some gs) := by
      rw [show gpuField (some (g :: gs)) =
          (pyStr g ++ [',']) ++ gpuField (some gs) from by
        simp [gpuField, List.flatten_cons]] at hc
      exact hc
    rcases List.mem_append.mp hc2 with h | h
    · rcases List.mem_append.mp h with h2 | h2
      · simp [pyStr_all g c h2]
      · simp only [List.mem_singleton] at h2
        subst h2
        decide
    · exact ih c h

theorem gpuField_some_ne_none_str (l : List Int) :
    gpuField (some l) ≠ chars "none" := by
  intro heq
  have hn : 'n' ∈ gpuField (some l) := by
    rw [heq]
    decide
  have := gpuField_all l 'n' hn
  exact absurd this (by decide)

/-- Reading back a written gpus field recovers the job's GPU list exactly,
`none` included and order preserved. -/
theorem parseGpus_gpuField : ∀ g : Option (List Int), parseGpus (gpuField g) = some g := by
  intro g
  cases g with
  | none => rfl
  | some l =>
    rw [parseGpus, if_neg (gpuField_some_ne_none_str l)]
    rw [splitComma_gpuField, parseInts_tokens]
    rfl

theorem gpuField_no_marker_no_surround (g : Option (List Int)) :
    hasOccurB (chars "gpus:") (gpuField g) = false ∧
      noSurround (gpuField g) = true := by
  cases g with
  | none => exact ⟨by decide, by decide⟩
  | some l =>
    constructor
    · by_contra hocc
      rw [Bool.not_eq_false] at hocc
      have hg : 'g' ∈ gpuField (some l) :=
        hasOccurB_head_mem (by exact hocc)
      have := gpuField_all l 'g' hg
      exact absurd this (by decide)
    · refine noSurround_of_all (fun c hc => ?_)
      have hgc := gpuField_all l c hc
      simp only [Bool.or_eq_true, decide_eq_true_eq] at hgc
      rcases hgc with h | h
      · exact wsChar_eq_false_of_pyStrChar h
      · subst h; decide

/-! ### The job record and its on-disk files -/

/-- The persistent attributes of a `Job` (`jh.Job`).  `job_dir` and `n_runs`
are bookkeeping not stored in the record and are omitted; `name` is the
directory basename. -/
structure Job where
  code_dir : Str
  data_dir : Str
  cmd : Str
  time : Str
  gpus : Option (List Int)
  status : Str
  name : Str
deriving DecidableEq

/-- The two record files of a job directory; `none` models an absent file.
A file is a list of newline-terminated lines, stored without the
terminator. -/
structure JobFiles where
  config : Option (List Str)
  statusTxt : Option (List Str)
deriving DecidableEq

/-- Decidable equality for `Except`, used to evaluate concrete runs. -/
instance {e a : Type} [DecidableEq e] [DecidableEq a] : DecidableEq (Except e a) := fun x y =>
  match x, y with
  | .ok v, .ok w =>
    if h : v = w then .isTrue (h ▸ rfl) else .isFalse (fun hc => h (Except.ok.inj hc))
  | .error v, .error w =>
    if h : v = w then .isTrue (h ▸ rfl) else .isFalse (fun hc => h (Except.error.inj hc))
  | .ok _, .error _ => .isFalse (fun hc => Except.noConfusion hc)
  | .error _, .ok _ => .isFalse (fun hc => Except.noConfusion hc)

/-- Python `f.readline()` for the `i`-th call on a file of full lines:
the line with its newline, or `''` past the end of file. -/
def readline : List Str → Nat → Str
  | [], _ => []
  | l :: _, 0 => l ++ ['\n']
  | _ :: ls, i + 1 => readline ls i

theorem readline_cons_zero (l : Str) (ls : List Str) :
    readline (l :: ls) 0 = l ++ ['\n'] := rfl

theorem readline_cons_succ (l : Str) (ls : List Str) (i : Nat) :
    readline (l :: ls) (i + 1) = readline ls i := rfl

/-- Errors `JobQueue._read_job` can raise: `FileNotFoundError` from `open`
on a missing file, `ValueError` from `int(...)` on a bad gpus entry. -/
inductive ReadErr where
  | fileNotFound
  | valueError
deriving DecidableEq

/-- `JobQueue._read_status`: first line of `status.txt` with `'status:'`
deleted and whitespace stripped. -/
def readStatusFrom (file : List Str) : Str :=
  listStrip (listRemoveAll (chars "status:") (readline file 0))

/-- Embedding of `JobQueue._read_job` (with `_read_status` inlined at the
end, as the source calls it): five positional `readline` calls against
`config.txt`, each line parsed by marker deletion plus strip (for `cmd`:
strip first, then marker deletion), the `gpus` line split on commas and
converted entrywise, then the status record. -/
def readJob (name : Str) (d : JobFiles) : Except ReadErr Job :=
  match d.config with
  | none => .error .fileNotFound
  | some cfg =>
    match parseGpus (listStrip (listRemoveAll (chars "gpus:") (readline cfg 4))) with
    | none => .error .valueError
    | some gp =>
      match d.statusTxt with
      | none => .error .fileNotFound
      | some st =>
        .ok { code_dir := listStrip (listRemoveAll (chars "code_dir:") (readline cfg 0)),
              data_dir := listStrip (listRemoveAll (chars "data_dir:") (readline cfg 1)),
              cmd := listRemoveAll (chars "cmd:") (listStrip (readline cfg 2)),
              time := listStrip (listRemoveAll (chars "time:") (readline cfg 3)),
              gpus := gp, status := readStatusFrom st, name := name }

/-- The five `config.txt` lines written by `JobQueue._write_job`. -/
def configLines (j : Job) : List Str :=
  [chars "code_dir: " ++ j.code_dir,
   chars "data_dir: " ++ j.data_dir,
   chars "cmd: " ++ j.cmd,
   chars "time: " ++ j.time,
   chars "gpus: " ++ gpuField j.gpus]

/-- The single `status.txt` line written by `JobQueue._write_status`. -/
def statusLine (s : Str) : Str := chars "status: " ++ s

/-- The record files produced by `JobQueue._write_job` for a job. -/
def writeJobFiles (j : Job) : JobFiles :=
  { config := some (configLines j), statusTxt := some [statusLine j.status] }

/-- Embedding of `JobQueue.update`: scan the subdirectories of the queue
root in order, reading each; `FileNotFoundError` is caught (the job is
skipped and logged), any other error — the `ValueError` of a bad gpus
entry — is uncaught and aborts the scan. -/
def updateScan : List (Str × JobFiles) → Except ReadErr (List (Str × Job))
  | [] => .ok []
  | (n, d) :: rest =>
    match readJob n d with
    | .ok j => (updateScan rest).map (fun js => (n, j) :: js)
    | .error .fileNotFound => updateScan rest
    | .error .valueError => .error .valueError

/-! ### Field validity predicates used by the round-trip statements -/

/-- A payload valid for a standard config field: single line, no surrounding
whitespace, no occurrence of the field's own marker. -/
def cleanField (m p : Str) : Bool :=
  !(hasOccurB m p) && noSurround p && !(p.contains '\n')

/-- A valid command string: single line, nonempty with a non-whitespace last
character, no occurrence of `'cmd:'`. -/
def cleanCmd (p : Str) : Bool :=
  !(hasOccurB (chars "cmd:") p) &&
  (match p.getLast? with
   | none => false
   | some c => !wsChar c) &&
  !(p.contains '\n')

theorem cleanField_spec {m p : Str} (h : cleanField m p = true) :
    hasOccurB m p = false ∧ noSurround p = true := by
  simp only [cleanField, Bool.and_eq_true, Bool.not_eq_true'] at h
  exact ⟨h.1.1, h.1.2⟩

theorem cleanCmd_spec {p : Str} (h : cleanCmd p = true) :
    hasOccurB (chars "cmd:") p = false ∧
      ∃ u, p.getLast? = some u ∧ wsChar u = false := by
  simp only [cleanCmd, Bool.and_eq_true, Bool.not_eq_true'] at h
  refine ⟨h.1.1, ?_⟩
  rcases hgl : p.getLast? with _ | u
  · have hmm := h.1.2
    rw [hgl] at hmm
    exact absurd hmm (by simp)
  · refine ⟨u, rfl, ?_⟩
    have hmm := h.1.2
    rw [hgl] at hmm
    simpa using hmm

/-- The status record round-trip performed by `write_status` followed by
`read_status` (or `_read_status`): write `'status: %s\n'`, read the line
back with `'status:'` deleted and whitespace stripped. -/
def statusRoundTrip (s : Str) : Str := readStatusFrom [statusLine s]

/-! ### Concrete jobs and job directories used to evaluate the model -/

/-- A well-formed job used as the concrete round-trip input. -/
def jobC3 : Job :=
  { code_dir := chars "/c", data_dir := chars "/d", cmd := chars "echo hi",
    time := chars "2020-01-01 00:00:00", gpus := some [0],
    status := chars "ready", name := chars "a" }

/-- A job directory whose config record stops after its first line but whose
status record is intact: four required fields are missing. -/
def filesTrunc : JobFiles := ⟨some [chars "code_dir: /a"], some [chars "status: ready"]⟩

/-- A job directory whose config gpus line holds a non-integer entry. -/
def filesBadGpu : JobFiles :=
  ⟨some [chars "code_dir: /a", chars "data_dir: /b", chars "cmd: run",
         chars "time: 1", chars "gpus: x"], some [chars "status: ready"]⟩

/-- A fully well-formed job directory. -/
def filesGood : JobFiles :=
  ⟨some [chars "code_dir: /a", chars "data_dir: /b", chars "cmd: run x",
         chars "time: 1", chars "gpus: none"], some [chars "status: ready"]⟩

/-- The job `filesGood` reads to. -/
def jobGood : Job :=
  { code_dir := chars "/a", data_dir := chars "/b", cmd := chars " run x",
    time := chars "1", gpus := none, status := chars "ready", name := chars "good" }

/-- The job `filesTrunc` reads to: missing lines come back as empty strings
and an empty gpus field becomes the empty list, with no error raised. -/
def jobTrunc : Job :=
  { code_dir := chars "/a", data_dir := [], cmd := [], time := [],
    gpus := some [], status := chars "ready", name := chars "partial" }

/-! ### Claim C3: write/read round-trip -/

/-- C3 (counterexample): the claim "reading back the job directory produced
by writing that job yields a job equal to the original in ... command ..."
fails: `_read_job` strips the `cmd` line before deleting `'cmd:'`, so the
command comes back with a leading space (`' echo hi'`, not `'echo hi'`). -/
theorem C3_counterexample :
    (readJob (chars "a") (writeJobFiles jobC3)).map Job.cmd ≠ .ok jobC3.cmd ∧
      (readJob (chars "a") (writeJobFiles jobC3)).map Job.cmd = .ok (chars " echo hi") := by
  decide

/-- C3 (amended): for every job with valid code path, data path, command,
submission time, status and GPU list, reading back the written job directory
yields a job equal to the original in code path, data path, submission time,
status and GPU list (order preserved), and whose command is the original
command with a single leading space. -/
theorem C3_amended (nm : Str) (j : Job)
    (h1 : cleanField (chars "code_dir:") j.code_dir = true)
    (h2 : cleanField (chars "data_dir:") j.data_dir = true)
    (h3 : cleanCmd j.cmd = true)
    (h4 : cleanField (chars "time:") j.time = true)
    (h5 : cleanField (chars "status:") j.status = true) :
    readJob nm (writeJobFiles j) =
      .ok { code_dir := j.code_dir, data_dir := j.data_dir, cmd := ' ' :: j.cmd,
            time := j.time, gpus := j.gpus, status := j.status, name := nm } := by
  have hcd := cleanField_spec h1
  have hdd := cleanField_spec h2
  obtain ⟨hcm1, u, hgl, hu⟩ := cleanCmd_spec h3
  have htm := cleanField_spec h4
  have hst := cleanField_spec h5
  have hgp := gpuField_no_marker_no_surround j.gpus
  have r0 : readline (configLines j) 0 = (chars "code_dir: " ++ j.code_dir) ++ ['\n'] := rfl
  have r1 : readline (configLines j) 1 = (chars "data_dir: " ++ j.data_dir) ++ ['\n'] := rfl
  have r2 : readline (configLines j) 2 = (chars "cmd: " ++ j.cmd) ++ ['\n'] := rfl
  have r3 : readline (configLines j) 3 = (chars "time: " ++ j.time) ++ ['\n'] := rfl
  have r4 : readline (configLines j) 4 = (chars "gpus: " ++ gpuField j.gpus) ++ ['\n'] := rfl
  have ecd : listStrip (listRemoveAll (chars "code_dir:")
      ((chars "code_dir: " ++ j.code_dir) ++ ['\n'])) = j.code_dir := by
    rw [show chars "code_dir: " ++ j.code_dir =
        chars "code_dir:" ++ (' ' :: j.code_dir) from rfl]
    exact parse_line_std (show chars "code_dir:" = 'c' :: chars "ode_dir:" from rfl)
      (by decide) (by decide) hcd.1 hcd.2
  have edd : listStrip (listRemoveAll (chars "data_dir:")
      ((chars "data_dir: " ++ j.data_dir) ++ ['\n'])) = j.data_dir := by
    rw [show chars "data_dir: " ++ j.data_dir =
        chars "data_dir:" ++ (' ' :: j.data_dir) from rfl]
    exact parse_line_std (show chars "data_dir:" = 'd' :: chars "ata_dir:" from rfl)
      (by decide) (by decide) hdd.1 hdd.2
  have ecm : listRemoveAll (chars "cmd:")
      (listStrip ((chars "cmd: " ++ j.cmd) ++ ['\n'])) = ' ' :: j.cmd := by
    rw [show chars "cmd: " ++ j.cmd = chars "cmd:" ++ (' ' :: j.cmd) from rfl]
    exact parse_line_cmd (show chars "cmd:" = 'c' :: chars "md:" from rfl)
      (by decide) (by decide) hcm1 hgl hu
  have etm : listStrip (listRemoveAll (chars "time:")
      ((chars "time: " ++ j.time) ++ ['\n'])) = j.time := by
    rw [show chars "time: " ++ j.time = chars "time:" ++ (' ' :: j.time) from rfl]
    exact parse_line_std (show chars "time:" = 't' :: chars "ime:" from rfl)
      (by decide) (by decide) htm.1 htm.2
  have egp : listStrip (listRemoveAll (chars "gpus:")
      ((chars "gpus: " ++ gpuField j.gpus) ++ ['\n'])) = gpuField j.gpus := by
    rw [show chars "gpus: " ++ gpuField j.gpus =
        chars "gpus:" ++ (' ' :: gpuField j.gpus) from rfl]
    exact parse_line_std (show chars "gpus:" = 'g' :: chars "pus:" from rfl)
      (by decide) (by decide) hgp.1 hgp.2
  have est : readStatusFrom [statusLine j.status] = j.status := by
    rw [readStatusFrom, readline_cons_zero, statusLine]
    rw [show chars "status: " ++ j.status = chars "status:" ++ (' ' :: j.status) from rfl]
    exact parse_line_std (show chars "status:" = 's' :: chars "tatus:" from rfl)
      (by decide) (by decide) hst.1 hst.2
  simp only [readJob, writeJobFiles, r0, r1, r2, r3, r4, ecd, edd, ecm, etm, egp,
    parseGpus_gpuField, est]

/-- C3 (witness): the amended round-trip evaluated at the concrete job. -/
theorem C3_witness :
    readJob (chars "a") (writeJobFiles jobC3) =
      .ok { code_dir := chars "/c", data_dir := chars "/d", cmd := chars " echo hi",
            time := chars "2020-01-01 00:00:00", gpus := some [0],
            status := chars "ready", name := chars "a" } :=
  C3_amended (chars "a") jobC3 (by decide) (by decide) (by decide) (by decide) (by decide)

/-! ### Claim C4: error classification of `_read_job` -/

/-- C4 (counterexample): the claim "...fails with ParseError when a record
exists but a line is missing a required field" fails: a config record with
only its first line parses successfully — `readline` returns `''` past the
end of file, so the missing fields come back empty and the empty gpus field
becomes the empty list. -/
theorem C4_counterexample :
    readJob (chars "partial") filesTrunc = .ok jobTrunc := by decide

/-- C4 (amended): reading fails with `FileNotFoundError` when the config
record is absent, and when the status record is absent it fails with either
`FileNotFoundError` or (if the gpus line is unreadable) `ValueError`; a
record that exists with a line missing a field parses without error; a
`ValueError` is raised exactly by a non-integer gpus entry, as in the
concrete directory `filesBadGpu`. -/
theorem C4_amended :
    (∀ nm d, d.config = none → readJob nm d = .error .fileNotFound) ∧
    (∀ nm d, d.statusTxt = none →
      readJob nm d = .error .fileNotFound ∨ readJob nm d = .error .valueError) ∧
    readJob (chars "b") filesBadGpu = .error .valueError := by
  refine ⟨?_, ?_, by decide⟩
  · intro nm d h
    simp only [readJob, h]
  · intro nm d h
    rcases d with ⟨cfg, st⟩
    have h' : st = none := h
    subst h'
    cases cfg with
    | none => left; rfl
    | some c =>
      rcases hg : parseGpus (listStrip (listRemoveAll (chars "gpus:") (readline c 4)))
        with _ | gp
      · right
        simp only [readJob, hg]
      · left
        simp only [readJob, hg]

/-- C4 (witness): the amended theorem applied at concrete directories with a
missing config record and a missing status record. -/
theorem C4_witness :
    readJob (chars "w") ⟨none, some [chars "status: ready"]⟩ = .error .fileNotFound ∧
      (readJob (chars "v") ⟨some [chars "gpus: none"], none⟩ = .error .fileNotFound ∨
        readJob (chars "v") ⟨some [chars "gpus: none"], none⟩ = .error .valueError) :=
  ⟨C4_amended.1 _ _ rfl, C4_amended.2.1 _ _ rfl⟩

/-! ### Claim C10: arbitrary status strings -/

/-- C10 (counterexample): the claim "for every single-line string s without
surrounding whitespace, write then read returns s" fails: `replace` deletes
every occurrence of `'status:'`, so the status `'status:'` reads back as the
empty string. -/
theorem C10_counterexample :
    statusRoundTrip (chars "status:") = [] ∧ chars "status:" ≠ ([] : Str) := by
  decide

/-- C10 (amended): for every single-line string without surrounding
whitespace that does not contain `'status:'` as a substring, writing it as a
job's status and reading it back returns the same string — the status
vocabulary is not validated. -/
theorem C10_amended (s : Str) (h : cleanField (chars "status:") s = true) :
    statusRoundTrip s = s := by
  have hs := cleanField_spec h
  rw [statusRoundTrip, readStatusFrom, readline_cons_zero, statusLine]
  rw [show chars "status: " ++ s = chars "status:" ++ (' ' :: s) from rfl]
  exact parse_line_std (show chars "status:" = 's' :: chars "tatus:" from rfl)
    (by decide) (by decide) hs.1 hs.2

/-- C10 (witness): a status outside the `ready`/`finished`/`crashed`
vocabulary persists and reads back unchanged. -/
theorem C10_witness : statusRoundTrip (chars "running") = chars "running" :=
  C10_amended (chars "running") (by decide)

/-! ### Claim C2: the scan of the queue root -/

/-- C2 (counterexample): the claim that `update()` skips any job whose
record fails to parse (for example a config record missing one field) and
that the scan always succeeds fails twice: a job directory whose config
record is missing four fields is not skipped but returned with default
values, and a job directory with a non-integer gpus entry raises an uncaught
`ValueError` that aborts the whole scan. -/
theorem C2_counterexample :
    updateScan [(chars "good", filesGood), (chars "partial", filesTrunc)] =
      .ok [(chars "good", jobGood), (chars "partial", jobTrunc)] ∧
    updateScan [(chars "good", filesGood), (chars "bad", filesBadGpu)] =
      .error .valueError := by decide

/-- C2 (amended): `update()` skips (and logs) exactly the job directories
whose read raises `FileNotFoundError` — a missing config or status record —
and keeps every directory that reads successfully, missing fields included;
a directory whose gpus entry fails integer conversion raises an uncaught
`ValueError` that aborts the scan. -/
theorem C2_amended :
    (∀ n d rest, readJob n d = .error .fileNotFound →
      updateScan ((n, d) :: rest) = updateScan rest) ∧
    (∀ n d rest j, readJob n d = .ok j →
      updateScan ((n, d) :: rest) = (updateScan rest).map (fun js => (n, j) :: js)) ∧
    (∀ n d rest, readJob n d = .error .valueError →
      updateScan ((n, d) :: rest) = .error .valueError) := by
  refine ⟨?_, ?_, ?_⟩
  · intro n d rest h
    simp only [updateScan, h]
  · intro n d rest j h
    simp only [updateScan, h]
  · intro n d rest h
    simp only [updateScan, h]

/-- C2 (witness): the amended skip rule applied to a directory whose record
files are both missing. -/
theorem C2_witness :
    updateScan [(chars "gone", ⟨none, none⟩), (chars "good", filesGood)] =
      updateScan [(chars "good", filesGood)] :=
  C2_amended.1 _ _ _ rfl

/-! ### Claim C5: `oldest()` -/

/-- Python `str` comparison `<`: lexicographic on code points. -/
def ltStr : Str → Str → Bool
  | [], [] => false
  | [], _ :: _ => true
  | _ :: _, [] => false
  | a :: as, b :: bs =>
    if a.toNat < b.toNat then true
    else if b.toNat < a.toNat then false
    else ltStr as bs

/-- One insertion step of sorting by submission time (ascending by `ltStr`
on `job.time`; ties, which `sorted` breaks stably and the spec leaves
arbitrary, are not relied upon). -/
def insertByTime (j : Job) : List Job → List Job
  | [] => [j]
  | k :: rest =>
    if ltStr j.time k.time then j :: k :: rest else k :: insertByTime j rest

/-- `sorted(..., key=lambda job: job.time)`. -/
def sortByTime : List Job → List Job
  | [] => []
  | j :: rest => insertByTime j (sortByTime rest)

/-- The list comprehension selecting jobs whose status is `'ready'`. -/
def readyJobs (jobs : List Job) : List Job :=
  jobs.filter (fun j => j.status == chars "ready")

/-- Embedding of `JobQueue.oldest`: the first element of the ready jobs
sorted by submission time, or `none` when no job is ready. -/
def oldest (jobs : List Job) : Option Job :=
  (sortByTime (readyJobs jobs)).head?

theorem ltStr_irrefl : ∀ s : Str, ltStr s s = false := by
  intro s
  induction s with
  | nil => rfl
  | cons a as ih => simp [ltStr, ih]

theorem ltStr_trans :
    ∀ a b c : Str, ltStr a b = true → ltStr b c = true → ltStr a c = true := by
  intro a
  induction a with
  | nil =>
    intro b c hab hbc
    cases c with
    | nil =>
      cases b with
      | nil => exact absurd hab (by simp [ltStr])
      | cons y ys => exact absurd hbc (by simp [ltStr])
    | cons z zs => simp [ltStr]
  | cons x xs ih =>
    intro b c hab hbc
    cases b with
    | nil => exact absurd hab (by simp [ltStr])
    | cons y ys =>
      cases c with
      | nil => exact absurd hbc (by simp [ltStr])
      | cons z zs =>
        rw [ltStr] at hab hbc ⊢
        by_cases hxy : x.toNat < y.toNat
        · by_cases hyz : y.toNat < z.toNat
          · rw [if_pos (by omega)]
          · rw [if_neg hyz] at hbc
            by_cases hzy : z.toNat < y.toNat
            · rw [if_pos hzy] at hbc
              exact absurd hbc (by simp)
            · rw [if_pos (by omega)]
        · rw [if_neg hxy] at hab
          by_cases hyx : y.toNat < x.toNat
          · rw [if_pos hyx] at hab
            exact absurd hab (by simp)
          · rw [if_neg hyx] at hab
            by_cases hyz : y.toNat < z.toNat
            · rw [if_pos (by omega)]
            · rw [if_neg hyz] at hbc
              by_cases hzy : z.toNat < y.toNat
              · rw [if_pos hzy] at hbc
                exact absurd hbc (by simp)
              · rw [if_neg hzy] at hbc
                rw [if_neg (by omega), if_neg (by omega)]
                exact ih ys zs hab hbc

theorem mem_insertByTime {x j : Job} :
    ∀ l, x ∈ insertByTime j l → x = j ∨ x ∈ l := by
  intro l
  induction l with
  | nil =>
    intro h
    simp only [insertByTime, List.mem_singleton] at h
    exact Or.inl h
  | cons k rest ih =>
    intro h
    rw [insertByTime] at h
    by_cases hlt : ltStr j.time k.time
    · rw [if_pos hlt] at h
      rcases List.mem_cons.mp h with h1 | h1
      · exact Or.inl h1
      · exact Or.inr h1
    · rw [if_neg hlt] at h
      rcases List.mem_cons.mp h with h1 | h1
      · exact Or.inr (h1 ▸ List.mem_cons_self k rest)
      · rcases ih h1 with h2 | h2
        · exact Or.inl h2
        · exact Or.inr (List.mem_cons_of_mem k h2)

theorem sortByTime_eq_nil_iff : ∀ l : List Job, sortByTime l = [] ↔ l = [] := by
  intro l
  cases l with
  | nil => simp [sortByTime]
  | cons j rest =>
    simp only [sortByTime]
    constructor
    · intro h
      exfalso
      rcases hs : sortByTime rest with _ | ⟨k, t⟩
      · rw [hs] at h
        simp [insertByTime] at h
      · rw [hs, insertByTime] at h
        by_cases hlt : ltStr j.time k.time
        · rw [if_pos hlt] at h
          exact absurd h (by simp)
        · rw [if_neg hlt] at h
          exact absurd h (by simp)
    · intro h
      exact absurd h (by simp)

theorem sortByTime_head_min :
    ∀ l h t, sortByTime l = h :: t →
      h ∈ l ∧ ∀ x ∈ l, ltStr x.time h.time = false := by
  intro l
  induction l with
  | nil => intro h t hc; exact absurd hc (by simp [sortByTime])
  | cons j rest ih =>
    intro h t hc
    rw [sortByTime] at hc
    rcases hs : sortByTime rest with _ | ⟨k, ks⟩
    · have hrest : rest = [] := (sortByTime_eq_nil_iff rest).mp hs
      rw [hs] at hc
      simp only [insertByTime] at hc
      have hj : h = j := by
        have := hc
        injection this with h1 _
        exact h1.symm
      subst hj
      subst hrest
      refine ⟨List.mem_cons_self _ _, ?_⟩
      intro x hx
      rcases List.mem_cons.mp hx with h1 | h1
      · rw [h1]; exact ltStr_irrefl _
      · exact absurd h1 (by simp)
    · rw [hs] at hc
      obtain ⟨hkmem, hkmin⟩ := ih k ks hs
      rw [insertByTime] at hc
      by_cases hlt : ltStr j.time k.time
      · rw [if_pos hlt] at hc
        have hj : h = j := by injection hc with h1 _; exact h1.symm
        subst hj
        refine ⟨List.mem_cons_self _ _, ?_⟩
        intro x hx
        rcases List.mem_cons.mp hx with h1 | h1
        · rw [h1]; exact ltStr_irrefl _
        · by_contra hxh
          rw [Bool.not_eq_false] at hxh
          have hxk : ltStr x.time k.time = true := ltStr_trans _ _ _ hxh hlt
          have := hkmin x h1
          rw [this] at hxk
          exact absurd hxk (by simp)
      · rw [if_neg hlt] at hc
        have hk : h = k := by injection hc with h1 _; exact h1.symm
        subst hk
        refine ⟨List.mem_cons_of_mem j hkmem, ?_⟩
        intro x hx
        rcases List.mem_cons.mp hx with h1 | h1
        · rw [h1]
          exact Bool.eq_false_iff.mpr hlt
        · exact hkmin x h1

/-- C5: among the jobs whose status is `'ready'`, `oldest` returns one of
minimum submission timestamp (by string comparison); it returns `none`
exactly when no ready job exists; it never returns a `'finished'` or
`'crashed'` job. -/
theorem C5_oldest (jobs : List Job) :
    (∀ j, oldest jobs = some j →
      j ∈ jobs ∧ j.status = chars "ready" ∧
      j.status ≠ chars "finished" ∧ j.status ≠ chars "crashed" ∧
      ∀ k ∈ jobs, k.status = chars "ready" → ltStr k.time j.time = false) ∧
    (oldest jobs = none ↔ ∀ k ∈ jobs, k.status ≠ chars "ready") := by
  constructor
  · intro j hj
    rw [oldest] at hj
    rcases hs : sortByTime (readyJobs jobs) with _ | ⟨h, t⟩
    · rw [hs] at hj
      exact absurd hj (by simp)
    · rw [hs] at hj
      have hhj : h = j := by simpa using hj
      subst hhj
      obtain ⟨hmem, hmin⟩ := sortByTime_head_min _ h t hs
      have hmem2 := List.mem_filter.mp hmem
      have hready : h.status = chars "ready" := by
        have := hmem2.2
        simpa using this
      refine ⟨hmem2.1, hready, ?_, ?_, ?_⟩
      · rw [hready]; decide
      · rw [hready]; decide
      · intro k hk hkready
        exact hmin k (List.mem_filter.mpr ⟨hk, by simp [hkready]⟩)
  · rw [oldest, List.head?_eq_none_iff, sortByTime_eq_nil_iff, readyJobs,
      List.filter_eq_nil_iff]
    constructor
    · intro hall k hk hkready
      have := hall k hk
      simp [hkready] at this
    · intro hall k hk
      simp only [beq_iff_eq]
      exact hall k hk

/-- Three concrete jobs: two ready with distinct timestamps, one crashed
with the smallest timestamp. -/
def jobsC5 : List Job :=
  [{ code_dir := chars "/a", data_dir := chars "/d", cmd := chars "x",
     time := chars "2", gpus := none, status := chars "ready", name := chars "A" },
   { code_dir := chars "/a", data_dir := chars "/d", cmd := chars "x",
     time := chars "0", gpus := none, status := chars "crashed", name := chars "B" },
   { code_dir := chars "/a", data_dir := chars "/d", cmd := chars "x",
     time := chars "1", gpus := none, status := chars "ready", name := chars "C" }]

/-- The ready job with the minimum timestamp in `jobsC5`. -/
def jobC5min : Job :=
  { code_dir := chars "/a", data_dir := chars "/d", cmd := chars "x",
    time := chars "1", gpus := none, status := chars "ready", name := chars "C" }

/-- C5 (witness): `oldest` on the concrete list returns the ready job with
the minimum timestamp, skipping the crashed job with a smaller one. -/
theorem C5_witness :
    jobC5min ∈ jobsC5 ∧ jobC5min.status = chars "ready" ∧
      jobC5min.status ≠ chars "finished" ∧ jobC5min.status ≠ chars "crashed" ∧
      ∀ k ∈ jobsC5, k.status = chars "ready" → ltStr k.time jobC5min.time = false :=
  (C5_oldest jobsC5).1 jobC5min (by decide)

/-! ### Filesystem model: the data binding and `run_job` -/

/-- Boolean membership of a path in a path list. -/
def memB (p : Str) : List Str → Bool
  | [] => false
  | q :: rest => if q = p then true else memB p rest

theorem memB_iff {p : Str} : ∀ l, memB p l = true ↔ p ∈ l := by
  intro l
  induction l with
  | nil => simp [memB]
  | cons q rest ih =>
    rw [memB]
    by_cases hq : q = p
    · simp [hq]
    · rw [if_neg hq, ih]
      constructor
      · exact fun h => List.mem_cons_of_mem q h
      · intro h
        rcases List.mem_cons.mp h with h1 | h1
        · exact absurd h1.symm hq
        · exact h1

/-- `os.path.split(p)[-1]`: the part after the last slash. -/
def basenameAux : Str → Str → Str
  | acc, [] => acc
  | acc, c :: rest => if c = '/' then basenameAux [] rest else basenameAux (acc ++ [c]) rest

/-- The basename of a path. -/
def basename (p : Str) : Str := basenameAux [] p

/-- `os.path.join(a, b)` for a relative `b`. -/
def joinPath (a b : Str) : Str :=
  if a = [] then b
  else if a.getLast? = some '/' then a ++ b else a ++ ('/' :: b)

/-- The filesystem as seen by the data-binding step: existing real entries
(directories or files) and symbolic links with their targets. -/
structure FsState where
  dirs : List Str
  links : List (Str × Str)
deriving DecidableEq

/-- First link registered at a path, if any. -/
def lookupLink : List (Str × Str) → Str → Option Str
  | [], _ => none
  | (q, t) :: rest, p => if q = p then some t else lookupLink rest p

/-- An entry is present at `p` (as `os.lstat` would see it): a real entry or
a link, dangling or not. -/
def entryExists (fs : FsState) (p : Str) : Bool :=
  memB p fs.dirs || (lookupLink fs.links p).isSome

/-- `os.path.exists(p)`: follows a symbolic link, so a dangling link — one
whose target is absent — reports `False`. -/
def pathExists (fs : FsState) (p : Str) : Bool :=
  memB p fs.dirs ||
    (match lookupLink fs.links p with
     | some t => memB t fs.dirs
     | none => false)

/-- The exception `os.symlink` raises at an occupied path. -/
inductive PyErr where
  | fileExists
deriving DecidableEq

/-- `os.symlink(target, p)`: raises `FileExistsError` when any entry — a
dangling link included — already sits at `p`; otherwise records the link. -/
def symlinkOp (fs : FsState) (target p : Str) : Except PyErr FsState :=
  if entryExists fs p then .error .fileExists
  else .ok { fs with links := (p, target) :: fs.links }

/-- The link path used by `run_job`: the data source's basename inside the
job's snapshot directory. -/
def slPath (job_dir data_dir : Str) : Str :=
  joinPath (joinPath job_dir (chars "snapshot/")) (basename data_dir)

/-- The data-binding step of `run_job` (source lines 262–268): create the
symlink unless `os.path.exists` reports the path as present. -/
def dataBind (job_dir data_dir : Str) (fs : FsState) : Except PyErr FsState :=
  if pathExists fs (slPath job_dir data_dir) then .ok fs
  else symlinkOp fs data_dir (slPath job_dir data_dir)

/-- Association-list update, as Python `dict.__setitem__`. -/
def setVar : List (Str × Str) → Str → Str → List (Str × Str)
  | [], k, v => [(k, v)]
  | (k2, v2) :: rest, k, v =>
    if k2 = k then (k, v) :: rest else (k2, v2) :: setVar rest k v

/-- Environment construction of `run_job` (source lines 273–278): copy the
ambient environment and, when the job lists GPUs, set
`CUDA_VISIBLE_DEVICES` to the same comma-joined text as the config gpus
field; with no GPU list the variable is left untouched.  This step is a
total function — it cannot raise. -/
def buildEnv (ambient : List (Str × Str)) (gpus : Option (List Int)) : List (Str × Str) :=
  match gpus with
  | none => ambient
  | some l => setVar ambient (chars "CUDA_VISIBLE_DEVICES") (gpuField (some l))

/-- Outcome of the body of the try block (opening `output.txt`, `Popen`,
streaming, `wait`): either some exception is raised, or the child exits
with a code. -/
inductive TryOutcome where
  | raises
  | exits (code : Int)
deriving DecidableEq

/-- What a `run_job` call did: the exception it let escape (if any), the
status it wrote through the queue (if any), the filesystem afterwards, and
the environment it built for the child (if it got that far). -/
structure RunResult where
  exc : Option PyErr
  written : Option Str
  fs : FsState
  env : Option (List (Str × Str))
deriving DecidableEq

/-- Embedding of `JobRunner.run_job`: the data-binding step runs outside
the try block, so its exception propagates with no status written; the
environment build follows; the try block's failure is absorbed by
`except Exception`, which writes `'crashed'`; normal completion writes
`'finished'` — `process.wait()`'s exit code is never inspected. -/
def runJob (job_dir data_dir : Str) (gpus : Option (List Int))
    (ambient : List (Str × Str)) (t : TryOutcome) (fs : FsState) : RunResult :=
  match dataBind job_dir data_dir fs with
  | .error e => ⟨some e, none, fs, none⟩
  | .ok fs2 =>
    match t with
    | .raises => ⟨none, some (chars "crashed"), fs2, some (buildEnv ambient gpus)⟩
    | .exits _ => ⟨none, some (chars "finished"), fs2, some (buildEnv ambient gpus)⟩

/-- A filesystem holding only a dangling link at the job's link path: the
data source itself is absent. -/
def fsDangling : FsState :=
  { dirs := [], links := [(slPath (chars "/q/j") (chars "/data/ds"), chars "/data/ds")] }

/-- A filesystem where the data source exists and the link path is free. -/
def fsFree : FsState :=
  { dirs := [chars "/data/ds", chars "/q/j/snapshot"], links := [] }

/-- `fsFree` after the data binding has created its link. -/
def fsBound : FsState :=
  { dirs := [chars "/data/ds", chars "/q/j/snapshot"],
    links := [(slPath (chars "/q/j") (chars "/data/ds"), chars "/data/ds")] }

/-! ### Claim C1: exception policy of `run_job` -/

/-- C1 (counterexample): the claim "if any exception occurs during any part
of the supervised-execution protocol ... run_job writes status 'crashed'
and returns normally" fails: the symlink step sits outside the try block,
so when `os.symlink` raises (here: `FileExistsError` on a dangling link),
the exception escapes `run_job` and no status at all is written. -/
theorem C1_counterexample :
    runJob (chars "/q/j") (chars "/data/ds") none [] (.exits 0) fsDangling =
      ⟨some .fileExists, none, fsDangling, none⟩ := by decide

/-- C1 (amended): an exception raised by the data-binding (symlink) step
propagates to the caller with no status written; once data binding has
succeeded (environment construction is total and cannot fail), any
exception inside the try block — output-file opening, process launch,
output streaming — is absorbed and recorded as status `'crashed'`, with
nothing re-raised. -/
theorem C1_amended (job_dir data_dir : Str) (gpus : Option (List Int))
    (ambient : List (Str × Str)) (fs : FsState) :
    (∀ e, dataBind job_dir data_dir fs = .error e →
      ∀ t, runJob job_dir data_dir gpus ambient t fs = ⟨some e, none, fs, none⟩) ∧
    (∀ fs2, dataBind job_dir data_dir fs = .ok fs2 →
      runJob job_dir data_dir gpus ambient .raises fs =
        ⟨none, some (chars "crashed"), fs2, some (buildEnv ambient gpus)⟩) := by
  constructor
  · intro e he t
    cases t <;> simp [runJob, he]
  · intro fs2 h2
    simp [runJob, h2]

/-- C1 (witness): the amended absorption rule evaluated where data binding
succeeds and the try block raises. -/
theorem C1_witness :
    runJob (chars "/q/j") (chars "/data/ds") none [] .raises fsFree =
      ⟨none, some (chars "crashed"), fsBound, some []⟩ :=
  (C1_amended (chars "/q/j") (chars "/data/ds") none [] fsFree).2 fsBound (by decide)

/-! ### Claim C6: exit codes are not inspected -/

/-- C6: whenever the steps up to and including streaming finish without an
exception, `run_job` writes status `'finished'`, for every exit code of the
child process — a non-zero exit is still recorded as `'finished'`. -/
theorem C6_finished (job_dir data_dir : Str) (gpus : Option (List Int))
    (ambient : List (Str × Str)) (fs fs2 : FsState) (code : Int)
    (h : dataBind job_dir data_dir fs = .ok fs2) :
    runJob job_dir data_dir gpus ambient (.exits code) fs =
      ⟨none, some (chars "finished"), fs2, some (buildEnv ambient gpus)⟩ := by
  simp [runJob, h]

/-- C6 (witness): a child exiting with code 7 is still recorded
`'finished'`. -/
theorem C6_witness :
    runJob (chars "/q/j") (chars "/data/ds") none [] (.exits 7) fsFree =
      ⟨none, some (chars "finished"), fsBound, some []⟩ :=
  C6_finished (chars "/q/j") (chars "/data/ds") none [] fsFree fsBound 7 (by decide)

/-! ### Claim C7: idempotence of the data binding -/

/-- C7 (counterexample): the claim "performing the data-binding step twice
neither raises nor changes the link target" fails when the data source does
not exist: the first call leaves a dangling link, `os.path.exists` reports
it absent, and the second call's `os.symlink` raises `FileExistsError`. -/
theorem C7_counterexample :
    dataBind (chars "/q/j") (chars "/data/ds") ⟨[], []⟩ =
      .ok ⟨[], [(slPath (chars "/q/j") (chars "/data/ds"), chars "/data/ds")]⟩ ∧
    dataBind (chars "/q/j") (chars "/data/ds")
        ⟨[], [(slPath (chars "/q/j") (chars "/data/ds"), chars "/data/ds")]⟩ =
      .error .fileExists := by decide

/-- C7 (amended): provided the data source path exists, a data-binding step
that succeeds is idempotent — repeating it on the resulting filesystem
raises nothing and changes nothing, the link target included. -/
theorem C7_amended (job_dir data_dir : Str) (fs fs2 : FsState)
    (hdata : data_dir ∈ fs.dirs)
    (h1 : dataBind job_dir data_dir fs = .ok fs2) :
    dataBind job_dir data_dir fs2 = .ok fs2 := by
  rw [dataBind] at h1
  by_cases hpe : pathExists fs (slPath job_dir data_dir) = true
  · rw [if_pos hpe] at h1
    have hfs : fs = fs2 := Except.ok.inj h1
    subst hfs
    rw [dataBind, if_pos hpe]
  · rw [if_neg hpe, symlinkOp] at h1
    by_cases hee : entryExists fs (slPath job_dir data_dir) = true
    · rw [if_pos hee] at h1
      exact absurd h1 (by simp)
    · rw [if_neg hee] at h1
      have hfs2 : { fs with links := (slPath job_dir data_dir, data_dir) :: fs.links } = fs2 :=
        Except.ok.inj h1
      have hpe2 : pathExists fs2 (slPath job_dir data_dir) = true := by
        rw [← hfs2, pathExists]
        have hlk : lookupLink ((slPath job_dir data_dir, data_dir) :: fs.links)
            (slPath job_dir data_dir) = some data_dir := by
          simp [lookupLink]
        rw [hlk]
        have hmem : memB data_dir fs.dirs = true := (memB_iff fs.dirs).mpr hdata
        simp [hmem]
      rw [dataBind, if_pos hpe2]

/-- C7 (witness): the amended idempotence evaluated on a filesystem whose
data source exists. -/
theorem C7_witness :
    dataBind (chars "/q/j") (chars "/data/ds") fsBound = .ok fsBound :=
  C7_amended (chars "/q/j") (chars "/data/ds") fsFree fsBound (by decide) (by decide)

/-! ### Claim C8: lock discipline of the queue operations -/

/-- One step of a queue method, as far as the lock is concerned: acquire or
release `self._lock`, or touch shared state (the jobs map / record files). -/
inductive LockStep where
  | acquire
  | release
  | action (descr : String)

/-- `guarded d p`: scanning `p` from lock depth `d`, every shared-state
action happens at positive depth and no release underflows. -/
def guarded : Nat → List LockStep → Bool
  | _, [] => true
  | d, .acquire :: rest => guarded (d + 1) rest
  | d, .release :: rest =>
    match d with
    | 0 => false
    | d2 + 1 => guarded d2 rest
  | d, .action _ :: rest => if d = 0 then false else guarded d rest

/-- The method touches shared state only while holding the lock. -/
def holdsLock (p : List LockStep) : Bool := guarded 0 p

/-- `JobQueue.update` (source lines 46–59): `with self._lock:` wraps the
whole rescan. -/
def updateSteps : List LockStep :=
  [.acquire, .action "clear and rebuild the jobs map by reading every job directory",
   .release]

/-- `JobQueue.read_status` (source lines 117–120): the read happens inside
`with self._lock:`. -/
def readStatusSteps : List LockStep :=
  [.acquire, .action "read status.txt into job.status", .release]

/-- `JobQueue.write_status` (source lines 122–125): the write happens inside
`with self._lock:`. -/
def writeStatusSteps : List LockStep :=
  [.acquire, .action "set job.status and write status.txt", .release]

/-- `JobQueue.oldest` (source lines 181–187): filters and sorts `self.jobs`
with no `with self._lock:` anywhere in its body. -/
def oldestSteps : List LockStep :=
  [.action "filter ready jobs from the shared jobs map and sort by time"]

/-- C8 (counterexample): the claim that every index operation — `oldest`
included — executes while holding the lock fails: `oldest` reads the shared
jobs map without acquiring the lock. -/
theorem C8_counterexample : holdsLock oldestSteps = false := by decide

/-- C8 (amended): `update`, `read_status` and `write_status` run their
shared-state work entirely under the single lock, but `oldest` accesses the
shared index without acquiring it, so index reads through `oldest` are not
serialized against concurrent callers. -/
theorem C8_amended :
    holdsLock updateSteps = true ∧ holdsLock readStatusSteps = true ∧
      holdsLock writeStatusSteps = true ∧ holdsLock oldestSteps = false := by
  decide

/-! ### Claim C9: `add_job` absorbs copy failures -/

/-- The errno discrimination performed by `copy` on a raised `OSError`. -/
inductive OSErrorKind where
  | enotdir
  | other (msg : Str)
deriving DecidableEq

/-- What the `copy` helper (source lines 200–209) did. -/
inductive CopyResult where
  | tree
  | file
  | absorbed (msg : Str)
  | raised (e : Str)
deriving DecidableEq

/-- Embedding of `copy(src, dest, ignore)`: the `shutil.copytree` outcome is
the oracle `treeErr` (`none` = success); on `ENOTDIR` it falls back to
`shutil.copy`, whose own failure `fileErr` is uncaught; any other `OSError`
— a nonexistent source included — is printed and absorbed. -/
def copyFn (treeErr : Option OSErrorKind) (fileErr : Option Str) : CopyResult :=
  match treeErr with
  | none => .tree
  | some .enotdir =>
    match fileErr with
    | none => .file
    | some e => .raised e
  | some (.other e) => .absorbed e

/-- What an `add_job` call produced: an escaped exception (if any), the
returned job (if any), the record files written (if reached), and the copy
outcome. -/
structure AddResult where
  raised : Option Str
  job : Option Job
  files : Option JobFiles
  copied : CopyResult
deriving DecidableEq

/-- Embedding of `JobQueue.add_job` with `_write_job` inlined, for
already-absolute paths: build the job with status `'ready'`, clear and
recreate the job directory, snapshot the code via `copy` (an exception
escaping `copy` aborts before any record is written), then write the config
and status records and return the job. -/
def addedJob (name code_dir data_dir cmd job_time : Str)
    (gpus : Option (List Int)) : Job :=
  { code_dir := code_dir, data_dir := data_dir, cmd := cmd,
    time := job_time, gpus := gpus, status := chars "ready", name := name }

def addJob (name code_dir data_dir cmd job_time : Str) (gpus : Option (List Int))
    (treeErr : Option OSErrorKind) (fileErr : Option Str) : AddResult :=
  let j : Job := addedJob name code_dir data_dir cmd job_time gpus
  match copyFn treeErr fileErr with
  | .raised e => ⟨some e, none, none, .raised e⟩
  | r => ⟨none, some j, some (writeJobFiles j), r⟩

/-- C9: when `shutil.copytree` fails with any `OSError` whose errno is not
`ENOTDIR` — a nonexistent code-source path included — `add_job` still
writes the config record and a status record of `'ready'` and returns the
job normally: the copy failure is absorbed with a printed message, never
raised to the caller. -/
theorem C9_copy_failure_absorbed (name code_dir data_dir cmd job_time : Str)
    (gpus : Option (List Int)) (e : Str) (fileErr : Option Str) :
    addJob name code_dir data_dir cmd job_time gpus (some (.other e)) fileErr =
      ⟨none,
       some (addedJob name code_dir data_dir cmd job_time gpus),
       some (writeJobFiles (addedJob name code_dir data_dir cmd job_time gpus)),
       .absorbed e⟩ := rfl
